import Mathlib

/-!
Shallow embedding of the `mycolorway/ckeditor5-typing` package and proofs
about it.

Modelled files:
* `src/texttransformation.js` — pattern normalization, the `matched:data`
  handler's replacement algorithm, and the configuration algebra
  (`getConfiguredTransformations`, `expandGroupsAndRemoveDuplicates`).
* `src/utils/injectunsafekeystrokeshandling.js` — `handleUnsafeKeystroke`
  and `isSafeKeystroke`.
* `src/delete.js` — the `delete` view-event listener.
* `src/textwatcher.js` is not among the sources (only its tests are), so the
  watcher's match-state machine is modelled from the spec where needed.

Strings are modelled as Lean `String`s; all characters appearing in the
claims are in the Basic Multilingual Plane, where JavaScript's UTF-16
`.length` agrees with Lean's character count.
-/

namespace CKTyping

/-! ### Patterns and transformations (src/texttransformation.js) -/

/-- The `from` field of a transformation description.  The built-in table
uses three shapes: a literal string (normalized by `normalizeFrom` into the
regexp `(escaped)$`), the quote pattern produced by `buildQuotesRegExp`
(`(^|\s)(q)([^q]*)(q)$`), and the dash patterns `(^| )(mid)( )$` used by
`enDash`/`emDash`. -/
inductive FromPattern where
  | str (s : String)
  | quotes (q : Char)
  | spacedPair (mid : String)
deriving DecidableEq, Repr

/-- The `to` field of a transformation description: a plain string or an
array whose `null` entries mean "leave this capture group unchanged"
(`normalizeTo`).  The built-in table uses no function-valued `to`. -/
inductive ToSpec where
  | str (s : String)
  | arr (xs : List (Option String))
deriving DecidableEq, Repr

/-- One entry of the `TRANSFORMATIONS` table: `{ from, to }`.  (`from` is a
Lean keyword, hence the primes.) -/
structure Transformation where
  from' : FromPattern
  to' : ToSpec
deriving DecidableEq, Repr

/-- The result of `RegExp#exec`: the match's start index in the input and
the list of captured substrings (`matches[1..]`).  Text is carried as
`List Char` so every operation reduces by computation. -/
structure MatchResult where
  index : Nat
  groups : List (List Char)
deriving DecidableEq, Repr

/-- `exec` of the regexp `(escapeRegExp(lit))$` built by `normalizeFrom`
for a string `from`: it matches iff `lit` is a suffix of `text`, with a
single capture group holding `lit` and the match starting where the suffix
starts. -/
def execLiteral (lit text : List Char) : Option MatchResult :=
  if lit.isSuffixOf text then
    some ⟨text.length - lit.length, [lit]⟩
  else
    none

/-- Helper for `execQuotes`: attempt the body `(q)([^q]*)(q)$` against
`rest`, with already-matched prefix group `g1` (the `(^|\s)` group) and
match start index `p`. The `[^q]*` group cannot contain `q`, so it extends
exactly to the next occurrence of `q`, which `$` forces to be the final
character. -/
def quotesBody (q : Char) (g1 : List Char) (rest : List Char) (p : Nat) :
    Option MatchResult :=
  match rest with
  | [] => none
  | c :: rs =>
    if c = q then
      let mid := rs.takeWhile (· ≠ q)
      let rem := rs.dropWhile (· ≠ q)
      if rem = [q] then
        some ⟨p, [g1, [q], mid, [q]]⟩
      else
        none
    else
      none

/-- Scan of `exec` for `(^|\s)(q)([^q]*)(q)$`: candidate start positions
are tried left to right; at position 0 the `^` alternative is tried before
the `\s` alternative, elsewhere only `\s` (consuming one whitespace
character) applies.  JavaScript's `\s` is modelled by `Char.isWhitespace`,
which agrees on the characters the claims use. -/
def execQuotesAux (q : Char) : Nat → List Char → Option MatchResult
  | p, rest =>
    match (if p = 0 then quotesBody q [] rest 0 else none) with
    | some m => some m
    | none =>
      match rest with
      | [] => none
      | c :: rs =>
        match (if c.isWhitespace then quotesBody q [c] rs p else none) with
        | some m => some m
        | none => execQuotesAux q (p + 1) rs

/-- `exec` of the regexp built by `buildQuotesRegExp(q)` on `text`. -/
def execQuotes (q : Char) (text : List Char) : Option MatchResult :=
  execQuotesAux q 0 text

/-- Like `quotesBody`, for the dash patterns `( mid )( )$` body: `mid`
literally, then a single space, then end of input. -/
def spacedPairBody (mid : List Char) (g1 : List Char) (rest : List Char) (p : Nat) :
    Option MatchResult :=
  if rest = mid ++ [' '] then
    some ⟨p, [g1, mid, [' ']]⟩
  else
    none

/-- Scan of `exec` for `(^| )(mid)( )$` (the `enDash`/`emDash` patterns):
like `execQuotesAux` but the first group's second alternative is a literal
space. -/
def execSpacedPairAux (mid : List Char) : Nat → List Char → Option MatchResult
  | p, rest =>
    match (if p = 0 then spacedPairBody mid [] rest 0 else none) with
    | some m => some m
    | none =>
      match rest with
      | [] => none
      | c :: rs =>
        match (if c = ' ' then spacedPairBody mid [c] rs p else none) with
        | some m => some m
        | none => execSpacedPairAux mid (p + 1) rs

/-- `exec` of a normalized `from` pattern (`normalizeFrom`). -/
def execFrom : FromPattern → List Char → Option MatchResult
  | .str lit, text => execLiteral lit.toList text
  | .quotes q, text => execQuotes q text
  | .spacedPair mid, text => execSpacedPairAux mid.toList 0 text

/-- `normalizeTo` applied to the computed matches: a plain-string `to`
yields the one-element array `[to]`; an array `to` is returned as-is
(independent of the matches). -/
def applyTo (to' : ToSpec) (_matches : List (List Char)) :
    List (Option (List Char)) :=
  match to' with
  | .str s => [some s.toList]
  | .arr xs => xs.map (Option.map String.toList)

/-- The replacement loop of the `matched:data` handler, acting on the text
of the selection's parent: for each capture group in order, a `null`
replacement advances `changeIndex` past the original substring, otherwise
the span `[changeIndex, changeIndex + group.length)` is replaced and
`changeIndex` advances by the replacement's length.  A missing replacement
entry behaves like `null` (JavaScript `undefined == null`). -/
def applyGroups (text : List Char) (idx : Nat) :
    List (List Char) → List (Option (List Char)) → List Char
  | [], _ => text
  | g :: gs, [] => applyGroups text (idx + g.length) gs []
  | g :: gs, r :: rs =>
    match r with
    | none => applyGroups text (idx + g.length) gs rs
    | some w =>
      applyGroups
        (text.take idx ++ w ++ text.drop (idx + g.length))
        (idx + w.length) gs rs

/-- The document-text effect of one `matched:data` handler run on a batch
that passed the `input.isInput` guard: `from.exec(data.text)` followed by
the replacement loop.  Returns `none` when the pattern does not match (the
watcher's predicate guarantees it does when the handler fires). -/
def transformText (t : Transformation) (text : String) : Option String :=
  match execFrom t.from' text.toList with
  | none => none
  | some m =>
    some (applyGroups text.toList m.index m.groups (applyTo t.to' m.groups)).asString

/-! ### Built-in transformation table and groups -/

def copyrightT : Transformation := ⟨.str "(c)", .str "©"⟩
def registeredTrademarkT : Transformation := ⟨.str "(r)", .str "®"⟩
def trademarkT : Transformation := ⟨.str "(tm)", .str "™"⟩
def oneHalfT : Transformation := ⟨.str "1/2", .str "½"⟩
def oneThirdT : Transformation := ⟨.str "1/3", .str "⅓"⟩
def twoThirdsT : Transformation := ⟨.str "2/3", .str "⅔"⟩
def oneForthT : Transformation := ⟨.str "1/4", .str "¼"⟩
def threeQuartersT : Transformation := ⟨.str "3/4", .str "¾"⟩
def lessThanOrEqualT : Transformation := ⟨.str "<=", .str "≤"⟩
def greaterThanOrEqualT : Transformation := ⟨.str ">=", .str "≥"⟩
def notEqualT : Transformation := ⟨.str "!=", .str "≠"⟩
def arrowLeftT : Transformation := ⟨.str "<-", .str "←"⟩
def arrowRightT : Transformation := ⟨.str "->", .str "→"⟩
def horizontalEllipsisT : Transformation := ⟨.str "...", .str "…"⟩
def enDashT : Transformation := ⟨.spacedPair "--", .arr [none, some "–", none]⟩
def emDashT : Transformation := ⟨.spacedPair "---", .arr [none, some "—", none]⟩
def quotesPrimaryT : Transformation :=
  ⟨.quotes '"', .arr [none, some "“", none, some "”"]⟩
def quotesSecondaryT : Transformation :=
  ⟨.quotes (Char.ofNat 39), .arr [none, some "‘", none, some "’"]⟩
def quotesPrimaryEnGbT : Transformation :=
  ⟨.quotes (Char.ofNat 39), .arr [none, some "‘", none, some "’"]⟩
def quotesSecondaryEnGbT : Transformation :=
  ⟨.quotes '"', .arr [none, some "“", none, some "”"]⟩
def quotesPrimaryPlT : Transformation :=
  ⟨.quotes '"', .arr [none, some "„", none, some "”"]⟩
def quotesSecondaryPlT : Transformation :=
  ⟨.quotes (Char.ofNat 39), .arr [none, some "‚", none, some "’"]⟩

/-- The `TRANSFORMATIONS` object as an association list (name → rule). -/
def TRANSFORMATIONS_LIST : List (String × Transformation) :=
  [ ("copyright", copyrightT),
    ("registeredTrademark", registeredTrademarkT),
    ("trademark", trademarkT),
    ("oneHalf", oneHalfT),
    ("oneThird", oneThirdT),
    ("twoThirds", twoThirdsT),
    ("oneForth", oneForthT),
    ("threeQuarters", threeQuartersT),
    ("lessThanOrEqual", lessThanOrEqualT),
    ("greaterThanOrEqual", greaterThanOrEqualT),
    ("notEqual", notEqualT),
    ("arrowLeft", arrowLeftT),
    ("arrowRight", arrowRightT),
    ("horizontalEllipsis", horizontalEllipsisT),
    ("enDash", enDashT),
    ("emDash", emDashT),
    ("quotesPrimary", quotesPrimaryT),
    ("quotesSecondary", quotesSecondaryT),
    ("quotesPrimaryEnGb", quotesPrimaryEnGbT),
    ("quotesSecondaryEnGb", quotesSecondaryEnGbT),
    ("quotesPrimaryPl", quotesPrimaryPlT),
    ("quotesSecondaryPl", quotesSecondaryPlT) ]

/-- `TRANSFORMATIONS[name]` (`undefined` becomes `none`). -/
def TRANSFORMATIONS (s : String) : Option Transformation :=
  (TRANSFORMATIONS_LIST.find? (fun p => p.1 == s)).map (·.2)

/-- The `TRANSFORMATION_GROUPS` object as an association list. -/
def TRANSFORMATION_GROUPS_LIST : List (String × List String) :=
  [ ("symbols", ["copyright", "registeredTrademark", "trademark"]),
    ("mathematical",
      ["oneHalf", "oneThird", "twoThirds", "oneForth", "threeQuarters",
       "lessThanOrEqual", "greaterThanOrEqual", "notEqual",
       "arrowLeft", "arrowRight"]),
    ("typography", ["horizontalEllipsis", "enDash", "emDash"]),
    ("quotes", ["quotesPrimary", "quotesSecondary"]) ]

/-- `TRANSFORMATION_GROUPS[name]`. -/
def TRANSFORMATION_GROUPS (s : String) : Option (List String) :=
  (TRANSFORMATION_GROUPS_LIST.find? (fun p => p.1 == s)).map (·.2)

/-! ### Configuration algebra (`getConfiguredTransformations`) -/

/-- An element of the configured `include`/`extra` arrays: either a rule or
group name (a string) or an inline transformation object.  The `id` field
models JavaScript object identity: two inline objects are the same `Set`
element only when they are the same reference. -/
inductive ConfigEntry where
  | name (s : String)
  | rule (id : Nat) (t : Transformation)
deriving DecidableEq, Repr

/-- An element of the array returned by `getConfiguredTransformations`:
the final `.map( t => TRANSFORMATIONS[ t ] || t )` yields the looked-up
rule object for known names, the inline object for inline rules, and the
string itself for unknown names. -/
inductive ResolvedEntry where
  | rule (t : Transformation)
  | name (s : String)
deriving DecidableEq, Repr

/-- The `typing.transformations` configuration object.  `include'` models
`config.include` after the plugin's `config.define` default has applied,
so it is always present. -/
structure TransformationsConfig where
  include' : List ConfigEntry
  extra : List ConfigEntry
  remove : List String
deriving Repr

/-- The `isNotRemoved` predicate: `!remove.includes(transformation)`.
`Array#includes` uses `===`, so with a string-valued `remove` list an
inline rule object is never removed. -/
def isNotRemoved (remove : List String) : ConfigEntry → Bool
  | .name s => !(remove.contains s)
  | .rule _ _ => true

/-- `Set#add` on an insertion-ordered set: appends unless present. -/
def addUnique (acc : List ConfigEntry) (e : ConfigEntry) : List ConfigEntry :=
  if e ∈ acc then acc else acc ++ [e]

/-- One iteration of the loop in `expandGroupsAndRemoveDuplicates`: a group
name is expanded into its member names; anything else is added as-is. -/
def expandStep (acc : List ConfigEntry) (e : ConfigEntry) : List ConfigEntry :=
  match e with
  | .name s =>
    match TRANSFORMATION_GROUPS s with
    | some members => members.foldl (fun a m => addUnique a (.name m)) acc
    | none => addUnique acc e
  | .rule _ _ => addUnique acc e

/-- `expandGroupsAndRemoveDuplicates`: expand group names and collapse
duplicates via insertion-ordered set accumulation. -/
def expandGroupsAndRemoveDuplicates (defs : List ConfigEntry) :
    List ConfigEntry :=
  defs.foldl expandStep []

/-- The final `.map` of `getConfiguredTransformations`:
`TRANSFORMATIONS[ transformation ] || transformation`. -/
def resolveEntry : ConfigEntry → ResolvedEntry
  | .name s =>
    match TRANSFORMATIONS s with
    | some r => .rule r
    | none => .name s
  | .rule _ t => .rule t

/-- The entry list of `getConfiguredTransformations` just before the final
`.map`: filter by `remove`, expand groups and deduplicate, filter by
`remove` again. -/
def configuredEntries (cfg : TransformationsConfig) : List ConfigEntry :=
  let configured := (cfg.include' ++ cfg.extra).filter (isNotRemoved cfg.remove)
  (expandGroupsAndRemoveDuplicates configured).filter (isNotRemoved cfg.remove)

/-- `getConfiguredTransformations`. -/
def getConfiguredTransformations (cfg : TransformationsConfig) :
    List ResolvedEntry :=
  (configuredEntries cfg).map resolveEntry

/-! ### Atomicity of the replacement transaction (`model.enqueueChange`) -/

/-- The host model's `enqueueChange`, as assumed by the spec (§5, §7): the
callback's edits form one atomic transaction; if the callback throws, the
transaction aborts and the document stays in its pre-transaction state. -/
def enqueueChange (doc : List Char)
    (callback : List Char → Except Unit (List Char)) : List Char :=
  match callback doc with
  | .ok d => d
  | .error _ => doc

/-- The replacement loop instrumented with a failure point: `failAt = some i`
makes the `i`-th (1-based, counting capture groups) `insertContent` call
throw.  Steps that skip a `null` replacement perform no edit and cannot
fail. -/
def applyGroupsExcept (failAt : Option Nat) (i : Nat) (text : List Char)
    (idx : Nat) :
    List (List Char) → List (Option (List Char)) → Except Unit (List Char)
  | [], _ => .ok text
  | g :: gs, [] => applyGroupsExcept failAt (i + 1) text (idx + g.length) gs []
  | g :: gs, r :: rs =>
    match r with
    | none => applyGroupsExcept failAt (i + 1) text (idx + g.length) gs rs
    | some w =>
      if failAt = some i then .error ()
      else
        applyGroupsExcept failAt (i + 1)
          (text.take idx ++ w ++ text.drop (idx + g.length))
          (idx + w.length) gs rs

/-- The `matched:data` handler's single `model.enqueueChange` call wrapping
the whole replacement loop. -/
def replaceInOneChange (failAt : Option Nat) (text : List Char) (idx : Nat)
    (gs : List (List Char)) (rs : List (Option (List Char))) : List Char :=
  enqueueChange text (fun t => applyGroupsExcept failAt 1 t idx gs rs)

/-- The document-text effect of one `matched:data` event, guard included:
the handler returns immediately when `input.isInput( data.batch )` is
false (selection changes, deletions, merges, undo and other non-typing
batches), otherwise it performs the replacement.  When `exec` does not
match (impossible when the watcher's predicate fired) the text is left
unchanged. -/
def matchedDataHandler (isInputBatch : Bool) (t : Transformation)
    (text : String) : String :=
  if !isInputBatch then text
  else
    match transformText t text with
    | some newText => newText
    | none => text

/-! ### Caret-context watcher match state (C7)

`src/textwatcher.js` is not among the sources (only `tests/textwatcher.js`
is), so the match-state machine is modelled from the spec. -/

/-- An event emitted by the watcher; `matched` covers both
`matched:data` and `matched:selection`. -/
inductive WatcherEvent where
  | matched
  | unmatched
deriving BEq, DecidableEq, Repr

/-- Modelled from the spec: the Caret-Context Watcher's MatchState
transition on one evaluation of the predicate (§3 MatchState, §4.1
on-change-applied; `src/textwatcher.js` is missing from the sources).
`unmatched → matched` emits a matched event; `matched → matched` re-emits;
`matched → unmatched` emits an unmatched event; `unmatched → unmatched`
emits nothing.  Returns the new `hasMatch` flag and the emitted event. -/
def watcherStep (p hasMatch : Bool) : Bool × Option WatcherEvent :=
  if p then
    (true, some .matched)
  else if hasMatch then
    (false, some .unmatched)
  else
    (false, none)

/-- Modelled from the spec: the trace of events the watcher emits over a
sequence of edits, given the predicate's value at each edit. -/
def watcherRun (hasMatch : Bool) : List Bool → List WatcherEvent
  | [] => []
  | p :: ps =>
    let r := watcherStep p hasMatch
    match r.2 with
    | some e => e :: watcherRun r.1 ps
    | none => watcherRun r.1 ps

/-- The predicate values toggle between successive edits, the previous
value being `s`. -/
def togglesFrom (s : Bool) : List Bool → Bool
  | [] => true
  | p :: ps => (p != s) && togglesFrom p ps

/-- The predicate values toggle between successive edits. -/
def toggles : List Bool → Bool
  | [] => true
  | p :: ps => togglesFrom p ps

/-- The opposite event kind. -/
def otherEvent : WatcherEvent → WatcherEvent
  | .matched => .unmatched
  | .unmatched => .matched

/-- The event list strictly alternates starting from `e`. -/
def isAltFrom (e : WatcherEvent) : List WatcherEvent → Bool
  | [] => true
  | x :: xs => (x == e) && isAltFrom (otherEvent e) xs

/-! ### Unsafe-keystroke handling
(`src/utils/injectunsafekeystrokeshandling.js`) -/

/-- A model selection as the keystroke handler sees it: an identity (for
`Selection#isEqual`) and its collapsedness. -/
structure Selection where
  id : Nat
  isCollapsed : Bool
deriving DecidableEq, Repr

/-- The key event data consumed by `isSafeKeystroke` and
`handleUnsafeKeystroke`. -/
structure KeyEventData where
  keyCode : Nat
  ctrlKey : Bool
deriving DecidableEq, Repr

/-- The `safeKeycodes` array: the listed codes plus the function-key loop
`112..135`.  (Arrow key codes: up 38, right 39, down 40, left 37.) -/
def safeKeycodes : List Nat :=
  [38, 39, 40, 37, 9, 16, 17, 18, 19, 20, 27, 33, 34, 35, 36, 45, 91, 93,
    144, 145, 173, 174, 175, 176, 177, 178, 179, 255] ++ List.range' 112 24

/-- `isSafeKeystroke`: any keystroke with Ctrl held, or whose key code is
in `safeKeycodes`, does not represent typing. -/
def isSafeKeystroke (keyData : KeyEventData) : Bool :=
  if keyData.ctrlKey then true
  else safeKeycodes.contains keyData.keyCode

/-- External state read by `handleUnsafeKeystroke`: the input command's
enabled flag, the view document's composition flag, and the model
document's current selection. -/
structure KeystrokeEnv where
  inputEnabled : Bool
  isComposing : Bool
  docSelection : Selection
deriving Repr

/-- The observable outcome of one `handleUnsafeKeystroke` call: the value
of the `latestCompositionSelection` closure variable afterwards, whether
`deleteSelectionContent` ran, and whether the composition-snapshot guard
(`!isComposing && keyCode === 229 && isSelectionUnchanged`) fired. -/
structure KeystrokeOutcome where
  latest : Option Selection
  didDelete : Bool
  usedSnapshot : Bool
deriving DecidableEq, Repr

/-- `latestCompositionSelection && latestCompositionSelection.isEqual(
doc.selection )`: a `null` buffer is falsy. -/
def isSelectionUnchanged (latest : Option Selection)
    (env : KeystrokeEnv) : Bool :=
  match latest with
  | some s => s = env.docSelection
  | none => false

/-- `handleUnsafeKeystroke`, with `latest` the value of the
`latestCompositionSelection` closure variable on entry (set by the
`compositionend` listener).  `isSelectionUnchanged` reads the value from
before the variable is reset to `null`; every return path leaves it
`null`. -/
def handleUnsafeKeystroke (env : KeystrokeEnv) (evtData : KeyEventData)
    (latest : Option Selection) : KeystrokeOutcome :=
  if !env.inputEnabled then
    ⟨none, false, false⟩
  else if isSafeKeystroke evtData || env.docSelection.isCollapsed then
    ⟨none, false, false⟩
  else if env.isComposing && evtData.keyCode == 229 then
    ⟨none, false, false⟩
  else if !env.isComposing && evtData.keyCode == 229 &&
      isSelectionUnchanged latest env then
    ⟨none, false, true⟩
  else
    ⟨none, true, false⟩

/-- The number of snapshot-guard suppressions over a sequence of handler
invocations with no intervening `compositionend` (which alone re-sets
`latestCompositionSelection`). -/
def countSnapshotUses (latest : Option Selection) :
    List (KeystrokeEnv × KeyEventData) → Nat
  | [] => 0
  | (env, evt) :: rest =>
    let out := handleUnsafeKeystroke env evt latest
    (if out.usedSnapshot then 1 else 0) + countSnapshotUses out.latest rest

/-! ### Delete view-event handling (`src/delete.js`) -/

/-- A model range: character offsets `[start, stop)` in the document
content. -/
abbrev ModelRange := Nat × Nat

/-- An opaque view-coordinate range; the mapper turns it into a model
range. -/
abbrev ViewRange := Nat × Nat

/-- A minimal document model for the deletion path: flat text content and
the current model selection (a list of ranges, as
`Selection#getRanges` yields). -/
structure DeleteDoc where
  content : List Char
  selection : List ModelRange
deriving DecidableEq, Repr

/-- Whether `i` falls inside one of the ranges. -/
def inRanges (sel : List ModelRange) (i : Nat) : Bool :=
  sel.any fun r => decide (r.1 ≤ i) && decide (i < r.2)

/-- A selection corresponds to valid model content: every range is ordered
and lies within the content. -/
def isValidModelSelection (doc : DeleteDoc) (sel : List ModelRange) : Bool :=
  sel.all fun r => decide (r.1 ≤ r.2) && decide (r.2 ≤ doc.content.length)

/-- The host model's `deleteContent` on this minimal document: drop the
characters covered by the selection and collapse the selection to the
first range's start. -/
def deleteContent (doc : DeleteDoc) (sel : List ModelRange) : DeleteDoc :=
  ⟨((List.range doc.content.length).zip doc.content).filterMap
      (fun p => if inRanges sel p.1 then none else some p.2),
    match sel with
    | [] => doc.selection
    | r :: _ => [(r.1, r.1)]⟩

/-- Modelled from the spec: `DeleteCommand#execute`
(`src/deletecommand.js` is not among the sources).  Per §7 of the spec, a
passed selection whose ranges no longer correspond to valid model content
is a recoverable condition: the command falls back to the current model
selection; the deletion itself always runs in one transaction. -/
def deleteCommandExecute (doc : DeleteDoc) (sel? : Option (List ModelRange)) :
    DeleteDoc :=
  match sel? with
  | some sel =>
    if isValidModelSelection doc sel then deleteContent doc sel
    else deleteContent doc doc.selection
  | none => deleteContent doc doc.selection

/-- The `delete` view-event listener of `Delete#init`: when
`data.selectionToRemove` is present its view ranges are mapped to model
ranges and passed to the command as the `selection` parameter; otherwise
the command runs on the current model selection. -/
def onDeleteEvent (mapper : ViewRange → ModelRange) (doc : DeleteDoc)
    (selectionToRemove : Option (List ViewRange)) : DeleteDoc :=
  match selectionToRemove with
  | some viewSel => deleteCommandExecute doc (some (viewSel.map mapper))
  | none => deleteCommandExecute doc none

end CKTyping

open CKTyping

/-! ## Theorems -/

/-- C1: for the rule `{ from: '(c)', to: '©' }`, the `matched:data`
replacement pipeline (`normalizeFrom` suffix regexp, capture extraction,
span replacement) applied to the caret context `"A foo(c)"` produces
exactly `"A foo©"`; the suffix match starts at index 5 with the single
capture group `"(c)"`. -/
theorem copyright_transform_exact :
    transformText copyrightT "A foo(c)" = some "A foo©" ∧
    execFrom copyrightT.from' "A foo(c)".toList =
      some ⟨5, ["(c)".toList]⟩ := by
  decide

/-- C2: for the `quotesPrimary` rule
(`(^|\s)(")([^"]*)(")$` with replacement `[null, '“', null, '”']`), the
replacement on caret context `' "Foo 1992 — bar(1) baz: xyz."'` yields
exactly `' “Foo 1992 — bar(1) baz: xyz.”'`; the extracted capture groups
are the leading space, the opening quote, the untouched inner content and
the closing quote, so only the two quote characters are replaced. -/
theorem quotesPrimary_partial_group_preservation :
    transformText quotesPrimaryT " \"Foo 1992 — bar(1) baz: xyz.\"" =
      some " “Foo 1992 — bar(1) baz: xyz.”" ∧
    execFrom quotesPrimaryT.from'
        " \"Foo 1992 — bar(1) baz: xyz.\"".toList =
      some ⟨0, [" ".toList, "\"".toList,
        "Foo 1992 — bar(1) baz: xyz.".toList, "\"".toList]⟩ := by
  decide

/-- C3: when the batch is not attributable to genuine user text input
(`input.isInput( data.batch )` is false), the `matched:data` handler
returns before any document modification: the document text is unchanged
for every rule and every caret context. -/
theorem nonInput_batch_no_modification (t : Transformation) (text : String) :
    matchedDataHandler false t text = text := rfl

/-- The configuration of C5: `include: [ 'symbols', 'bogus' ]` where
`'bogus'` names no built-in rule and no group. -/
def bogusIncludeCfg : TransformationsConfig :=
  ⟨[.name "symbols", .name "bogus"], [], []⟩

/-- C5 counterexample: the resolved set is not exactly the `symbols`
group's rules — the unknown name is not dropped. -/
theorem unknownName_not_dropped_cex :
    getConfiguredTransformations bogusIncludeCfg ≠
      [.rule copyrightT, .rule registeredTrademarkT, .rule trademarkT] := by
  decide

/-- C5 amended: resolution with `include: [ 'symbols', 'bogus' ]` raises no
error (the function is total) and yields the `symbols` group's rules
followed by the unknown name `'bogus'` passed through verbatim by
`TRANSFORMATIONS[ t ] || t`; unknown plain names are kept, not dropped. -/
theorem unknownName_passed_through :
    getConfiguredTransformations bogusIncludeCfg =
      [.rule copyrightT, .rule registeredTrademarkT, .rule trademarkT,
        .name "bogus"] := by
  decide

/-- The configuration of the C6 counterexample: the `symbols` group is
removed while its member `copyright` is listed individually in
`include`. -/
def memberIncludeCfg : TransformationsConfig :=
  ⟨[.name "copyright"], [], ["symbols"]⟩

/-- C6 counterexample: `copyright` is a member of the removed group
`symbols`, was listed individually in `include`, and survives resolution —
subtraction does not expand remove-group-names to their members. -/
theorem removeGroup_individual_member_survives_cex :
    ("symbols" ∈ memberIncludeCfg.remove ∧
      "copyright" ∈ (TRANSFORMATION_GROUPS "symbols").getD []) ∧
    getConfiguredTransformations memberIncludeCfg = [.rule copyrightT] := by
  decide

/-- What one `expandGroupsAndRemoveDuplicates` loop iteration on entry `d`
can add to the accumulated set: a group name adds its member names,
anything else adds itself. -/
def addedBy (d x : ConfigEntry) : Prop :=
  match d with
  | .name s =>
    match TRANSFORMATION_GROUPS s with
    | some ms => ∃ n ∈ ms, x = ConfigEntry.name n
    | none => x = d
  | .rule _ _ => x = d

/-- Membership after a `Set#add`. -/
theorem addUnique_mem {acc : List ConfigEntry} {e x : ConfigEntry}
    (h : x ∈ addUnique acc e) : x ∈ acc ∨ x = e := by
  unfold addUnique at h
  split at h
  · exact Or.inl h
  · rcases List.mem_append.1 h with h | h
    · exact Or.inl h
    · exact Or.inr (List.mem_singleton.1 h)

/-- Membership after adding a group's member names. -/
theorem foldl_addNames_mem (ms : List String) :
    ∀ {acc : List ConfigEntry} {x : ConfigEntry},
      x ∈ ms.foldl (fun a m => addUnique a (.name m)) acc →
      x ∈ acc ∨ ∃ n ∈ ms, x = ConfigEntry.name n := by
  induction ms with
  | nil => intro acc x h; exact Or.inl h
  | cons m ms ih =>
    intro acc x h
    simp only [List.foldl_cons] at h
    rcases ih h with h' | ⟨n, hn, rfl⟩
    · rcases addUnique_mem h' with h'' | rfl
      · exact Or.inl h''
      · exact Or.inr ⟨m, by simp, rfl⟩
    · exact Or.inr ⟨n, by simp [hn], rfl⟩

/-- Membership after one `expandGroupsAndRemoveDuplicates` iteration. -/
theorem expandStep_mem {acc : List ConfigEntry} {d x : ConfigEntry}
    (h : x ∈ expandStep acc d) : x ∈ acc ∨ addedBy d x := by
  cases d with
  | rule i t =>
    exact (addUnique_mem h).imp_right fun e => e
  | name s =>
    cases hg : TRANSFORMATION_GROUPS s with
    | some ms =>
      simp only [expandStep, hg] at h
      exact (foldl_addNames_mem ms h).imp_right fun e => by
        simpa only [addedBy, hg] using e
    | none =>
      simp only [expandStep, hg] at h
      exact (addUnique_mem h).imp_right fun e => by
        simpa only [addedBy, hg] using e

/-- Every element of the expanded, deduplicated set was contributed by
some configured entry. -/
theorem foldl_expand_mem (defs : List ConfigEntry) :
    ∀ {acc : List ConfigEntry} {x : ConfigEntry},
      x ∈ defs.foldl expandStep acc →
      x ∈ acc ∨ ∃ d ∈ defs, addedBy d x := by
  induction defs with
  | nil => intro acc x h; exact Or.inl h
  | cons d defs ih =>
    intro acc x h
    simp only [List.foldl_cons] at h
    rcases ih h with h' | ⟨d', hd', ha⟩
    · rcases expandStep_mem h' with h'' | ha
      · exact Or.inl h''
      · exact Or.inr ⟨d, by simp, ha⟩
    · exact Or.inr ⟨d', by simp [hd'], ha⟩

/-- A successful `TRANSFORMATION_GROUPS` lookup comes from the table. -/
theorem TRANSFORMATION_GROUPS_mem {s : String} {ms : List String}
    (h : TRANSFORMATION_GROUPS s = some ms) :
    (s, ms) ∈ TRANSFORMATION_GROUPS_LIST := by
  unfold TRANSFORMATION_GROUPS at h
  cases hf : TRANSFORMATION_GROUPS_LIST.find? (fun p => p.1 == s) with
  | none => rw [hf] at h; simp at h
  | some p =>
    rw [hf] at h
    simp at h
    have hmem := List.mem_of_find?_eq_some hf
    have hp := List.find?_some hf
    obtain ⟨a, b⟩ := p
    obtain rfl : a = s := by simpa using hp
    obtain rfl : b = ms := h
    exact hmem

/-- No rule name belongs to two different built-in groups. -/
theorem groups_pairwise_disjoint :
    ∀ p ∈ TRANSFORMATION_GROUPS_LIST, ∀ q ∈ TRANSFORMATION_GROUPS_LIST,
      p.1 ≠ q.1 → ∀ x ∈ p.2, x ∉ q.2 := by
  decide

/-- A rule name determines the group it is a member of. -/
theorem group_member_unique {g1 g2 m : String} {ms1 ms2 : List String}
    (h1 : TRANSFORMATION_GROUPS g1 = some ms1) (hm1 : m ∈ ms1)
    (h2 : TRANSFORMATION_GROUPS g2 = some ms2) (hm2 : m ∈ ms2) :
    g1 = g2 := by
  by_contra hne
  exact groups_pairwise_disjoint (g1, ms1) (TRANSFORMATION_GROUPS_mem h1)
    (g2, ms2) (TRANSFORMATION_GROUPS_mem h2) hne m hm1 hm2

/-- C6 amended: if `config.remove` contains a group name, the group name
itself is filtered out before expansion, so no member of the group enters
the resolved set via the group; since subtraction does not expand
remove-group-names to their members, the guarantee that a member rule is
absent additionally requires that its own name was not listed individually
in `include` or `extra` (an individually listed member survives, see the
counterexample).  The `remove` filter is applied both before and after the
group-expansion-and-dedup step. -/
theorem removeGroup_blocks_expansion (cfg : TransformationsConfig)
    (g m : String) (ms : List String)
    (hg : TRANSFORMATION_GROUPS g = some ms) (hr : g ∈ cfg.remove)
    (hm : m ∈ ms)
    (hi : ConfigEntry.name m ∉ cfg.include')
    (he : ConfigEntry.name m ∉ cfg.extra) :
    ConfigEntry.name m ∉ configuredEntries cfg := by
  intro hmem
  have hmem' : ConfigEntry.name m ∈ expandGroupsAndRemoveDuplicates
      ((cfg.include' ++ cfg.extra).filter (isNotRemoved cfg.remove)) :=
    (List.mem_filter.1 hmem).1
  unfold expandGroupsAndRemoveDuplicates at hmem'
  rcases foldl_expand_mem _ hmem' with h0 | ⟨d, hd, ha⟩
  · simp at h0
  · have hd0 : d ∈ cfg.include' ++ cfg.extra := (List.mem_filter.1 hd).1
    have hdp : isNotRemoved cfg.remove d = true := (List.mem_filter.1 hd).2
    cases d with
    | rule i t => simp [addedBy] at ha
    | name s =>
      cases hgs : TRANSFORMATION_GROUPS s with
      | none =>
        rw [show addedBy (ConfigEntry.name s) (ConfigEntry.name m) =
            (ConfigEntry.name m = ConfigEntry.name s) by
          simp [addedBy, hgs]] at ha
        obtain rfl : s = m := (ConfigEntry.name.injEq .. ▸ ha).symm
        rcases List.mem_append.1 hd0 with h | h
        · exact hi h
        · exact he h
      | some ms' =>
        rw [show addedBy (ConfigEntry.name s) (ConfigEntry.name m) =
            (∃ n ∈ ms', ConfigEntry.name m = ConfigEntry.name n) by
          simp [addedBy, hgs]] at ha
        obtain ⟨n, hn, hx⟩ := ha
        obtain rfl : m = n := by simpa using hx
        obtain rfl : s = g := group_member_unique hgs hn hg hm
        simp [isNotRemoved, hr] at hdp

/-- C6 amended witness: with `include: [ 'symbols', 'typography' ]` and
`remove: [ 'symbols' ]`, the member `copyright` (not listed individually)
is absent from the resolved entries. -/
theorem removeGroup_blocks_expansion_witness :
    TRANSFORMATION_GROUPS "symbols" =
      some ["copyright", "registeredTrademark", "trademark"] ∧
    ConfigEntry.name "copyright" ∉ configuredEntries
      ⟨[.name "symbols", .name "typography"], [], ["symbols"]⟩ :=
  ⟨by decide,
    removeGroup_blocks_expansion
      ⟨[.name "symbols", .name "typography"], [], ["symbols"]⟩
      "symbols" "copyright" ["copyright", "registeredTrademark", "trademark"]
      (by decide) (by decide) (by decide) (by decide) (by decide)⟩

/-- A successful run of the instrumented replacement loop computes exactly
what the pure loop computes. -/
theorem applyGroupsExcept_ok (gs : List (List Char)) :
    ∀ (failAt : Option Nat) (i : Nat) (text : List Char) (idx : Nat)
      (rs : List (Option (List Char))) (r : List Char),
      applyGroupsExcept failAt i text idx gs rs = .ok r →
      applyGroups text idx gs rs = r := by
  induction gs with
  | nil =>
    intro failAt i text idx rs r h
    simp [applyGroupsExcept] at h
    simp [applyGroups, h]
  | cons g gs ih =>
    intro failAt i text idx rs r h
    cases rs with
    | nil =>
      simp only [applyGroupsExcept] at h
      simpa [applyGroups] using ih failAt (i + 1) text (idx + g.length) [] r h
    | cons hd tl =>
      cases hd with
      | none =>
        simp only [applyGroupsExcept] at h
        simpa [applyGroups] using ih failAt (i + 1) text (idx + g.length) tl r h
      | some w =>
        simp only [applyGroupsExcept] at h
        by_cases hf : failAt = some i
        · simp [hf] at h
        · simp only [hf, if_false] at h
          simpa [applyGroups] using
            ih failAt (i + 1) (text.take idx ++ w ++ text.drop (idx + g.length))
              (idx + w.length) tl r h

/-- C4: every replacement for one match runs inside the single
`model.enqueueChange` transaction, so the observable document text is
always either the pre-transaction text or the fully transformed text
(never a partially replaced one); and whenever the transaction's callback
throws, the document is left in its pre-transaction state. -/
theorem replacement_transaction_atomic (failAt : Option Nat)
    (text : List Char) (idx : Nat) (gs : List (List Char))
    (rs : List (Option (List Char))) :
    (replaceInOneChange failAt text idx gs rs = applyGroups text idx gs rs ∨
      replaceInOneChange failAt text idx gs rs = text) ∧
    (∀ e, applyGroupsExcept failAt 1 text idx gs rs = Except.error e →
      replaceInOneChange failAt text idx gs rs = text) := by
  constructor
  · simp only [replaceInOneChange, enqueueChange]
    cases h : applyGroupsExcept failAt 1 text idx gs rs with
    | ok r => exact Or.inl (applyGroupsExcept_ok gs failAt 1 text idx rs r h).symm
    | error e => exact Or.inr rfl
  · intro e h
    simp only [replaceInOneChange, enqueueChange, h]

/-- C4 witness: with the first `insertContent` call throwing, the
transaction aborts and the text `"ab"` is left unchanged. -/
theorem replacement_transaction_atomic_witness :
    applyGroupsExcept (some 1) 1 "ab".toList 0 ["ab".toList]
        [some "X".toList] = Except.error () ∧
    replaceInOneChange (some 1) "ab".toList 0 ["ab".toList]
        [some "X".toList] = "ab".toList :=
  ⟨rfl,
    (replacement_transaction_atomic (some 1) "ab".toList 0 ["ab".toList]
      [some "X".toList]).2 () rfl⟩

/-- With the watcher's current `hasMatch` state equal to the previous
predicate value `s`, a toggling continuation emits a strictly alternating
trace whose first event is the opposite of the state. -/
theorem watcherRun_alt (ps : List Bool) :
    ∀ s : Bool, togglesFrom s ps = true →
      isAltFrom (if s then .unmatched else .matched) (watcherRun s ps) =
        true := by
  induction ps with
  | nil => intro s _; cases s <;> rfl
  | cons p ps ih =>
    intro s h
    simp only [togglesFrom, Bool.and_eq_true, bne_iff_ne, ne_eq] at h
    obtain ⟨h1, h2⟩ := h
    cases s with
    | false =>
      cases p with
      | false => exact absurd rfl h1
      | true =>
        have := ih true h2
        simp only [watcherRun, watcherStep, isAltFrom, otherEvent,
          if_true, if_false, Bool.and_eq_true]
        exact ⟨rfl, this⟩
    | true =>
      cases p with
      | true => exact absurd rfl h1
      | false =>
        have := ih false h2
        simp only [watcherRun, watcherStep, isAltFrom, otherEvent,
          if_true, if_false, Bool.and_eq_true]
        exact ⟨rfl, this⟩

/-- C7: for a watcher whose predicate value toggles between successive
edits, the emitted events strictly alternate `matched`, `unmatched`,
`matched`, … starting from the initial unmatched state: two `matched`
events are never adjacent in the trace, and every `unmatched` event is
emitted from a previously matched state (it is immediately preceded by a
`matched` event). -/
theorem watcher_events_alternate (ps : List Bool)
    (h : toggles ps = true) :
    isAltFrom .matched (watcherRun false ps) = true := by
  cases ps with
  | nil => rfl
  | cons p ps =>
    have h' : togglesFrom p ps = true := h
    cases p with
    | false =>
      have := watcherRun_alt ps false h'
      simpa [watcherRun, watcherStep] using this
    | true =>
      have := watcherRun_alt ps true h'
      simp only [watcherRun, watcherStep, isAltFrom, otherEvent,
        if_true, if_false, Bool.and_eq_true]
      exact ⟨rfl, this⟩

/-- C7 witness: the predicate values `true, false, true` toggle, and the
emitted trace `matched, unmatched, matched` strictly alternates. -/
theorem watcher_events_alternate_witness :
    toggles [true, false, true] = true ∧
    isAltFrom .matched (watcherRun false [true, false, true]) = true :=
  ⟨by decide, watcher_events_alternate [true, false, true] (by decide)⟩

/-- Every return path of `handleUnsafeKeystroke` leaves
`latestCompositionSelection` reset to `null`. -/
theorem handleUnsafeKeystroke_resets (env : KeystrokeEnv)
    (evt : KeyEventData) (latest : Option Selection) :
    (handleUnsafeKeystroke env evt latest).latest = none := by
  unfold handleUnsafeKeystroke
  split_ifs <;> rfl

/-- With no buffered composition selection, the snapshot guard cannot
fire. -/
theorem handleUnsafeKeystroke_no_snapshot (env : KeystrokeEnv)
    (evt : KeyEventData) :
    (handleUnsafeKeystroke env evt none).usedSnapshot = false := by
  unfold handleUnsafeKeystroke
  simp only [isSelectionUnchanged, Bool.and_false]
  split_ifs <;> first | rfl | contradiction

/-- Starting with no buffered selection, no invocation in a run of
keystroke handlers uses the snapshot. -/
theorem countSnapshotUses_none (evts : List (KeystrokeEnv × KeyEventData)) :
    countSnapshotUses none evts = 0 := by
  induction evts with
  | nil => rfl
  | cons e rest ih =>
    obtain ⟨env, evt⟩ := e
    simp [countSnapshotUses, handleUnsafeKeystroke_no_snapshot,
      handleUnsafeKeystroke_resets, ih]

/-- C8: while a composition session is open (`isComposing`), a keystroke
with `keyCode` 229 never triggers `deleteSelectionContent`; and the
buffered `compositionend` selection snapshot is reset to `null` on every
handler entry, so over any run of handler invocations it suppresses
deletion at most once. -/
theorem composition_keystroke_suppression (env : KeystrokeEnv)
    (evt : KeyEventData) (latest : Option Selection)
    (evts : List (KeystrokeEnv × KeyEventData)) :
    (handleUnsafeKeystroke env evt latest).latest = none ∧
    (env.isComposing = true → evt.keyCode = 229 →
      (handleUnsafeKeystroke env evt latest).didDelete = false) ∧
    countSnapshotUses latest evts ≤ 1 := by
  refine ⟨handleUnsafeKeystroke_resets env evt latest, ?_, ?_⟩
  · intro h1 h2
    unfold handleUnsafeKeystroke
    split_ifs with hA hB hC hD
    · rfl
    · rfl
    · rfl
    · rfl
    · exact absurd (by simp [h1, h2]) hC
  · cases evts with
    | nil => exact Nat.zero_le 1
    | cons e rest =>
      obtain ⟨env', evt'⟩ := e
      simp only [countSnapshotUses, handleUnsafeKeystroke_resets,
        countSnapshotUses_none]
      split_ifs <;> simp

/-- C8 witness: a 229 keystroke during composition with a non-collapsed,
snapshot-equal selection does not delete, and a one-keystroke run uses the
snapshot at most once. -/
theorem composition_keystroke_suppression_witness :
    (handleUnsafeKeystroke ⟨true, true, ⟨7, false⟩⟩ ⟨229, false⟩
        (some ⟨7, false⟩)).didDelete = false ∧
    countSnapshotUses (some ⟨7, false⟩)
        [(⟨true, true, ⟨7, false⟩⟩, ⟨229, false⟩)] ≤ 1 :=
  ⟨(composition_keystroke_suppression ⟨true, true, ⟨7, false⟩⟩ ⟨229, false⟩
      (some ⟨7, false⟩) []).2.1 rfl rfl,
    (composition_keystroke_suppression ⟨true, true, ⟨7, false⟩⟩ ⟨229, false⟩
      (some ⟨7, false⟩)
      [(⟨true, true, ⟨7, false⟩⟩, ⟨229, false⟩)]).2.2⟩

/-- C10: a keystroke with the Ctrl modifier held is classified safe by
`isSafeKeystroke`, so `handleUnsafeKeystroke` never deletes the selected
content for it, whatever the selection, composition state or key code. -/
theorem ctrl_keystroke_no_deletion (env : KeystrokeEnv)
    (evt : KeyEventData) (latest : Option Selection)
    (h : evt.ctrlKey = true) :
    (handleUnsafeKeystroke env evt latest).didDelete = false := by
  unfold handleUnsafeKeystroke
  split_ifs with hA hB hC hD
  · rfl
  · rfl
  · rfl
  · rfl
  · exact absurd (by simp [isSafeKeystroke, h]) hB

/-- C10 witness: Ctrl+A with a non-collapsed selection does not delete. -/
theorem ctrl_keystroke_no_deletion_witness :
    (handleUnsafeKeystroke ⟨true, false, ⟨3, false⟩⟩ ⟨65, true⟩
        none).didDelete = false :=
  ctrl_keystroke_no_deletion ⟨true, false, ⟨3, false⟩⟩ ⟨65, true⟩ none rfl

/-- C9: when the mapped `selectionToRemove` does not correspond to valid
model content, the `delete` event is still handled: the command falls back
to the current model selection, producing the same document as a delete
event with no explicit selection. -/
theorem delete_mapping_fallback (mapper : ViewRange → ModelRange)
    (doc : DeleteDoc) (viewSel : List ViewRange)
    (h : isValidModelSelection doc (viewSel.map mapper) = false) :
    onDeleteEvent mapper doc (some viewSel) =
      deleteCommandExecute doc none := by
  simp [onDeleteEvent, deleteCommandExecute, h]

/-- C9 witness: a stale mapper sending every view range to the reversed
range `(5, 2)` of a 2-character document yields an invalid model
selection, and the deletion falls back to the current model selection. -/
theorem delete_mapping_fallback_witness :
    isValidModelSelection ⟨"ab".toList, [(0, 1)]⟩
        (List.map (fun _ => ((5 : Nat), (2 : Nat))) [((0 : Nat), (0 : Nat))]) =
      false ∧
    onDeleteEvent (fun _ => (5, 2)) ⟨"ab".toList, [(0, 1)]⟩
        (some [(0, 0)]) =
      deleteCommandExecute ⟨"ab".toList, [(0, 1)]⟩ none :=
  ⟨by decide,
    delete_mapping_fallback (fun _ => (5, 2)) ⟨"ab".toList, [(0, 1)]⟩
      [(0, 0)] (by decide)⟩
